import Mathlib

/-!
Shallow embedding of the kb-fusion per-file hybrid retrieval engine
(src/semantic_search.py) and proofs about its per-query pipeline.

Modeling conventions, used consistently below:
* Python strings are `List Char` (named `Str`); `str.lower()` is `Char.toLower`
  (the inputs of interest are ASCII).
* Python floats are rationals (`ℚ`).  `np.std(xs) < c` (with `c ≥ 0`) is encoded
  as `variance xs < c^2`, which is equivalent over the reals and avoids square
  roots.
* External collaborators (the SQLite FTS index, the two embedding-cache tiers
  and the OpenAI embedding client) are oracle functions bundled in `Env`;
  the engine only observes their return values.
* `np.argsort` (quicksort) and Python's stable `sort`/`sorted` are modeled
  with a stable insertion sort (`insertionSortBy`); for `np.argsort` the order
  among exactly tied keys is unspecified in the source and the stable order is
  one valid refinement.
-/

namespace KB

/-- Python strings, modeled as lists of characters. -/
abbrev Str := List Char

/-- Embedding vectors (rows of the numpy arrays), modeled as lists of rationals. -/
abbrev Vec := List ℚ

/-- CONFIG constants of semantic_search.py, at their default values. -/
def K_SQL : ℕ := 600

/-- K_FINAL default (number of results returned per query). -/
def K_FINAL : ℕ := 20

/-- TOP_OAI default (slice size before dedup). -/
def TOP_OAI : ℕ := 28

/-- JACCARD_THRESHOLD default. -/
def JACCARD_THRESHOLD : ℚ := 83/100

/-- RRF_K default. -/
def RRF_K : ℚ := 60

/-- PRF_K default (feedback docs). -/
def PRF_K : ℕ := 10

/-- PRF_M default (expansion terms). -/
def PRF_M : ℕ := 20

/-- K_SQL2 default (second pass limit), K_SQL + 300. -/
def K_SQL2 : ℕ := K_SQL + 300

/-- The fixed stopword set STOP of semantic_search.py. -/
def STOP : List Str :=
  (["i", "me", "my", "myself", "we", "our", "ours", "ourselves", "you", "your",
    "yours", "yourself", "yourselves", "he", "him", "his", "himself", "she",
    "her", "hers", "herself", "it", "its", "itself", "they", "them", "their",
    "theirs", "themselves", "what", "which", "who", "whom", "this", "that",
    "these", "those", "am", "is", "are", "was", "were", "be", "been", "being",
    "have", "has", "had", "having", "do", "does", "did", "doing", "a", "an",
    "the", "and", "but", "if", "or", "because", "as", "until", "while", "of",
    "at", "by", "for", "with", "through", "during", "before", "after", "above",
    "below", "up", "down", "in", "out", "on", "off", "over", "under", "again",
    "further", "then", "once", "here", "there", "when", "where", "why", "how",
    "all", "any", "both", "each", "few", "more", "most", "other", "some",
    "such", "no", "nor", "not", "only", "own", "same", "so", "than", "too",
    "very", "s", "t", "can", "will", "just", "should", "now"]).map
    String.toList

/-- Character class of the tokenizer regex [a-z0-9] (applied after lowercasing). -/
def isTokChar (c : Char) : Bool :=
  (decide ('a' ≤ c) && decide (c ≤ 'z')) || (decide ('0' ≤ c) && decide (c ≤ '9'))

/-- Worker for re.findall of a character-class regex: cur carries the current
run reversed; a nonempty run is emitted when it ends. -/
def runsAux (p : Char → Bool) (cur : Str) : List Char → List Str
  | [] => if cur = [] then [] else [cur.reverse]
  | c :: cs =>
    if p c then runsAux p (c :: cur) cs
    else if cur = [] then runsAux p [] cs
    else cur.reverse :: runsAux p [] cs

/-- Maximal runs of characters satisfying p, in order (re.findall of a
character-class regex). -/
def runsOf (p : Char → Bool) (l : List Char) : List Str := runsAux p [] l

/-- Stable insertion of a into an le-sorted list: a goes before the first
element b with le a b, so on ties the earlier-inserted element stays first.
This is the comparison behavior of Python's stable sorted/list.sort. -/
def orderedInsertBy {α : Type} (le : α → α → Bool) (a : α) : List α → List α
  | [] => [a]
  | b :: l => if le a b then a :: b :: l else b :: orderedInsertBy le a l

/-- Stable sort by a Boolean comparison (Python's sorted). -/
def insertionSortBy {α : Type} (le : α → α → Bool) : List α → List α
  | [] => []
  | a :: l => orderedInsertBy le a (insertionSortBy le l)

/-- The tokenizer: tok = lambda s: re.findall(r"[a-z0-9]+", (s or "").lower()). -/
def tok (s : Str) : List Str := runsOf isTokChar (s.map Char.toLower)

/-- Nonempty all-digit token.  On tokenizer output (alphabet [a-z0-9], so no
dot can occur) this is exactly re.fullmatch(r"\d+(\.\d+)?", t) and also exactly
re.fullmatch(r"\d+", t). -/
def isAllDigits (t : Str) : Bool := decide (t ≠ []) && t.all Char.isDigit

/-- re.fullmatch(r"\d{3,4}", t) on a tokenizer token. -/
def isNum34 (t : Str) : Bool :=
  t.all Char.isDigit && decide (3 ≤ t.length) && decide (t.length ≤ 4)

/-- First-occurrence deduplication (Python list(dict.fromkeys(xs)) and, when
followed by a sort by a total key, set(xs)). -/
def dedupFirstAux {α : Type} [DecidableEq α] (seen : List α) : List α → List α
  | [] => []
  | x :: xs =>
    if x ∈ seen then dedupFirstAux seen xs else x :: dedupFirstAux (x :: seen) xs

/-- Lexicographic (code-point) order on strings, Python's str comparison. -/
def lexLe : Str → Str → Bool
  | [], _ => true
  | _ :: _, [] => false
  | a :: as, b :: bs => if a = b then lexLe as bs else decide (a < b)

/-- Python sort key (-len(x), x): longer first, ties lexicographic. -/
def kwLe (a b : Str) : Bool :=
  if a.length = b.length then lexLe a b else decide (b.length < a.length)

/-- Model of _keywords(q, max_terms=16): numerics (input order) then deduplicated words
sorted by (-len, lex) capped at 16, with a final first-occurrence dedup.
Python computes sorted(set(words), ...); since the key is a total order on
distinct strings, this equals sorting the first-occurrence dedup. -/
def keywordsOf (q : Str) : List Str :=
  let terms := tok q
  let nums := terms.filter (fun t => isAllDigits t)
  let words := terms.filter
    (fun t => decide (t ∉ nums) && decide (t ∉ STOP) && decide (2 < t.length))
  let sortedWords := (insertionSortBy kwLe (dedupFirstAux [] words)).take 16
  dedupFirstAux [] (nums ++ sortedWords)

/-- Model of _fts_or(keys): None on empty, else the OR-joined match expression with
word terms quoted and numeric terms bare. -/
def ftsOr (keys : List Str) : Option String :=
  if keys = [] then none
  else some (String.intercalate (" OR ")
    (keys.map (fun k =>
      if isAllDigits k then String.mk k else "\"" ++ String.mk k ++ "\"")))

/-- Model of _minmax(xs): map to [0,1]; all 0.5 when the range is below 1e-9. -/
def minmax (xs : List ℚ) : List ℚ :=
  match xs with
  | [] => []
  | x :: rest =>
    let lo := rest.foldl min x
    let hi := rest.foldl max x
    if hi - lo < 1/1000000000 then xs.map (fun _ => (1:ℚ)/2)
    else xs.map (fun v => (v - lo) / (hi - lo))

/-- Population variance of the first 10 entries (np.std(scores[:10]) squared). -/
def variance10 (scores : List ℚ) : ℚ :=
  let xs := scores.take 10
  let n : ℚ := xs.length
  let m := xs.sum / n
  (xs.map (fun x => (x - m)^2)).sum / n

/-- Model of _adaptive_budget(scores, default=80).  np.std(scores[:10]) < 0.02 is
encoded as variance10 scores < (2/100)^2.  The source's
`score_std = ... if len(scores) >= 10 else 0.1` else-branch is dead (the
function returns earlier when len < 10). -/
def adaptiveBudget (scores : List ℚ) : ℕ :=
  if scores.length < 10 then min scores.length 80
  else
    let r1 := scores.getD 0 0
    let r5 := scores.getD (min 4 (scores.length - 1)) 0
    let r10 := scores.getD (min 9 (scores.length - 1)) 0
    if variance10 scores < (2/100)^2 ∨ r1 - r10 < 1/10 then 100
    else if 2/5 < r1 - r5 then 70
    else if 1/2 < r1 - r10 then 80
    else 90

/-- Model of _should_prf(query, scores): short query (≤ 4 non-stopword tokens of
length > 2) or ≥ 10 scores with flat top-10 (std < 0.02, i.e. variance
< (2/100)^2). -/
def shouldPrf (query : Str) (scores : List ℚ) : Bool :=
  let tokens := (tok query).filter
    (fun t => decide (t ∉ STOP) && decide (2 < t.length))
  if tokens.length ≤ 4 then true
  else if scores.length < 10 then false
  else decide (variance10 scores < (2/100)^2)

/-- Add v to the entry of key t in an association list, keeping first-insertion
order (Python dict accumulation: d[t] = d.get(t, 0) + v). -/
def bumpAssoc : List (Str × ℚ) → Str → ℚ → List (Str × ℚ)
  | [], t, v => [(t, v)]
  | (k, x) :: rest, t, v =>
    if k = t then (k, x + v) :: rest else (k, x) :: bumpAssoc rest t v

/-- Per-document term-frequency map (Python dict, first-occurrence order). -/
def tfMapOf (docTokens : List Str) : List (Str × ℚ) :=
  docTokens.foldl (fun m t => bumpAssoc m t 1) []

/-- Model of _extract_prf_terms(docs, query_tokens): RM3-style expansion term scoring
over the first PRF_K docs.  Dicts are association lists in first-insertion
order; Python's stable sorted(key=-score) is the stable insertionSortBy. -/
def extractPrfTerms (docs : List (Int × Str × ℚ)) (queryTokens : List Str) :
    List Str :=
  let termScores := (docs.take PRF_K).foldl
    (fun acc d =>
      let score := d.2.2
      let docWeight := if score < 0 then 1 / (1 + |score|) else score
      (tfMapOf (tok d.2.1)).foldl
        (fun acc2 p =>
          if decide (p.1.length < 3) || decide (p.1 ∈ STOP) ||
              isAllDigits p.1 || decide (p.1 ∈ queryTokens) then acc2
          else
            let idfEst : ℚ := if p.2 ≤ 2 then 2 else if p.2 ≤ 5 then 3/2 else 1
            bumpAssoc acc2 p.1 (docWeight * p.2 * idfEst))
        acc)
    []
  let sortedTerms := insertionSortBy (fun a b => decide (b.2 ≤ a.2)) termScores
  (((sortedTerms.take PRF_M).filter (fun p => decide (1/10 < p.2))).map
    (fun p => p.1)).take PRF_M

/-- Model of _build_expanded_query(orig_keys, expansion_terms): anchored FTS expression.
In the main branch both _fts_or results are nonempty strings (nonempty key
lists), so the Python truthiness test on `expansions` passes. -/
def buildExpandedQuery (origKeys expansionTerms : List Str) : Option String :=
  if origKeys = [] then
    if expansionTerms = [] then none else ftsOr expansionTerms
  else if expansionTerms = [] then ftsOr origKeys
  else
    match ftsOr (origKeys.take 3), ftsOr (expansionTerms.take 5) with
    | some anchors, some expansions =>
      some ("(" ++ anchors ++ ") OR (" ++ String.mk (origKeys.headI)
        ++ " AND (" ++ expansions ++ "))")
    | some anchors, none => some anchors
    | none, _ => none

/-- Token set of a text: set(tok(t)). -/
def tokSet (t : Str) : Finset Str := (tok t).toFinset

/-- Jaccard similarity as in _jaccard_dedup:
len(a & b) / max(1, len(a | b)). -/
def jaccardSim (a b : Finset Str) : ℚ :=
  ((a ∩ b).card : ℚ) / (max 1 ((a ∪ b).card) : ℚ)

/-- Index sort of np.argsort(-scores): indices in decreasing-score order
(stable sort; the source's quicksort leaves exact-tie order
unspecified and the stable order is one valid refinement). -/
def argsortDesc (scores : List ℚ) : List ℕ :=
  insertionSortBy (fun i j => decide (scores.getD j 0 ≤ scores.getD i 0))
    (List.range scores.length)

/-- The keep-loop of _jaccard_dedup: admit i iff its Jaccard similarity with
every already-kept j is strictly below the threshold. -/
def dedupGo (ws : List (Finset Str)) (threshold : ℚ) :
    List ℕ → List ℕ → List ℕ
  | keep, [] => keep
  | keep, i :: rest =>
    if keep.all (fun j =>
        decide (jaccardSim (ws.getD i ∅) (ws.getD j ∅) < threshold)) then
      dedupGo ws threshold (keep ++ [i]) rest
    else
      dedupGo ws threshold keep rest

/-- Model of _jaccard_dedup(texts, scores, threshold): kept indices, processed in
decreasing-score order. -/
def jaccardDedup (texts : List Str) (scores : List ℚ) (threshold : ℚ) :
    List ℕ :=
  if texts.length ≤ 1 then List.range texts.length
  else dedupGo (texts.map tokSet) threshold [] (argsortDesc scores)

/-- Maximal digit runs of a string (re.findall(r'\d+', s)).  In the boost
features s is a ' '-joined token list, so runs never span a token boundary
and the union of per-token runs equals the runs of the joined string. -/
def digitRuns (s : Str) : List Str := runsOf Char.isDigit s

/-- Python substring test `needle in haystack` (contiguous occurrence; the
empty needle always matches). -/
def hasSubstr (haystack needle : Str) : Bool :=
  if needle.length = 0 then true
  else (List.range (haystack.length + 1)).any
    (fun i => decide ((haystack.drop i).take needle.length = needle))

/-- The `normalize` closure inside _compute_boost_features:
(arr - np.min(arr)) / (np.ptp(arr) + 1e-9).  Unlike _minmax, a constant
vector maps to all zeros. -/
def boostNormalize (arr : List ℚ) : List ℚ :=
  match arr with
  | [] => []
  | x :: rest =>
    let lo := rest.foldl min x
    let hi := rest.foldl max x
    arr.map (fun v => (v - lo) / ((hi - lo) + 1/1000000000))

/-- The raw (pre-normalization) jaccard / phrase / digit feature vectors of
_compute_boost_features. -/
def rawBoostFeatures (texts : List Str) (q : Str) :
    List ℚ × List ℚ × List ℚ :=
  let qt := (tok q).filter (fun t => decide (t ∉ STOP))
  let qs := qt.toFinset
  let qnums : Finset Str := (qt.flatMap digitRuns).toFinset
  let rawPhrases : List Str :=
    ((List.range (qt.length + 1 - 2)).map
      (fun i => List.intercalate [' '] ((qt.drop i).take 2))) ++
    ((List.range (qt.length + 1 - 3)).map
      (fun i => List.intercalate [' '] ((qt.drop i).take 3)))
  let phrases : Finset Str :=
    if rawPhrases.toFinset = ∅ then {[]} else rawPhrases.toFinset
  let jaccardScores := texts.map (fun txt =>
    let w := (tok txt).toFinset
    ((qs ∩ w).card : ℚ) / (max 1 ((qs ∪ w).card) : ℚ))
  let phraseScores := texts.map (fun txt =>
    let s := List.intercalate [' '] (tok txt)
    ((phrases.filter (fun p => p ≠ [] ∧ hasSubstr s p = true)).card : ℚ) /
      (max 1 phrases.card : ℚ))
  let digitScores : List ℚ := texts.map (fun txt =>
    let tnums : Finset Str := ((tok txt).flatMap digitRuns).toFinset
    if qnums ∩ tnums ≠ ∅ then 1 else 0)
  (jaccardScores, phraseScores, digitScores)

/-- Model of _compute_boost_features(texts, query): the three raw feature vectors, each
passed through `normalize`. -/
def computeBoostFeatures (texts : List Str) (q : Str) :
    List ℚ × List ℚ × List ℚ :=
  let raw := rawBoostFeatures texts q
  (boostNormalize raw.1, boostNormalize raw.2.1, boostNormalize raw.2.2)

/-- Python \s on the ASCII range. -/
def isWs (c : Char) : Bool :=
  decide (c = ' ') || decide (c = '\t') || decide (c = '\n') ||
  decide (c = '\r') || decide (c = '\x0b') || decide (c = '\x0c')

/-- Sentence-ending punctuation of the snippet splitter. -/
def isSentEnd (c : Char) : Bool :=
  decide (c = '.') || decide (c = '!') || decide (c = '?')

/-- Worker for re.split(r'(?<=[.!?])\s+', text): a delimiter is a maximal
whitespace run immediately preceded by [.!?].  cur holds the current piece
reversed; skipWs is true while consuming the rest of a delimiter run (cur is
then empty). -/
def splitSentsGo (skipWs : Bool) (cur : Str) : Str → List Str
  | [] => [cur.reverse]
  | c :: rest =>
    if skipWs && isWs c then splitSentsGo true [] rest
    else if isSentEnd c && isWs (rest.headD 'x') then
      (cur.reverse ++ [c]) :: splitSentsGo true [] rest
    else splitSentsGo false (c :: cur) rest

/-- re.split(r'(?<=[.!?])\s+', text). -/
def splitSents (text : Str) : List Str := splitSentsGo false [] text

/-- Python max(range(n), key=val): the first index attaining the maximum. -/
def argmaxFirst (val : ℕ → ℕ) (n : ℕ) : ℕ :=
  (List.range n).foldl (fun best i => if val best < val i then i else best) 0

/-- out[:max_chars].rsplit(" ", 1)[0]: drop from the last space on; the whole
string when it has no space. -/
def cutLastSpace (s : Str) : Str :=
  let r := s.reverse.dropWhile (fun c => decide (c ≠ ' '))
  if r = [] then s else r.tail.reverse

/-- Number of distinct query tokens occurring (as substrings) in the
lowercased sentence: sum(w in sents[i].lower() for w in qt) with qt a set. -/
def sentMatchCount (qt : List Str) (sent : Str) : ℕ :=
  qt.countP (fun w => hasSubstr (sent.map Char.toLower) w)

/-- Model of _snippet(text, query, max_chars=280).  The `if not sents` branch is dead
(re.split always returns at least one piece) but is kept as written. -/
def snippet (text q : Str) : Str :=
  let maxChars : ℕ := 280
  let sents := splitSents text
  if sents = [] then
    text.take maxChars ++ (if maxChars < text.length then ['…'] else [])
  else
    let qt := dedupFirstAux [] (tok q)
    let best := argmaxFirst (fun i => sentMatchCount qt (sents.getD i []))
      sents.length
    let left := best - 1
    let right := min sents.length (best + 3)
    let out := List.intercalate [' '] ((sents.drop left).take (right - left))
    if maxChars < out.length then cutLastSpace (out.take maxChars) ++ ['…']
    else out

/-- One row of the FTS SELECT: (id, text, bm25(fts) AS r, text_hash).
The 128-bit md5 digest is modeled as an opaque integer. -/
structure Row where
  id : Int
  text : Str
  raw : ℚ
  hash : Int
deriving DecidableEq, Repr

/-- The external collaborators observed by one query: the FTS index (match
expression and LIMIT to rows), the persistent embeddings table and the
in-memory document LRU (hash to vector), and _oai_embed (input texts to
vectors, None on failure). -/
structure Env where
  fts : String → ℕ → List Row
  cacheDb : Int → Option Vec
  lruD : Int → Option Vec
  oai : List Str → Option (List Vec)

/-- A result record emitted by _search_single_sentence. -/
structure SearchResult where
  file_uid : String
  file_path : String
  chunk_id : Int
  score : ℚ
  snippet : Str
  rank_stage : String
deriving DecidableEq, Repr, Inhabited

/-- One candidate after the TOP_OAI slice: the parallel arrays ids / texts /
text_hashes / bnorm of the source, bundled per index. -/
structure Cand where
  id : Int
  text : Str
  hash : Int
  bn : ℚ
deriving DecidableEq, Repr

/-- Default candidate used by in-range list indexing. -/
def candDefault : Cand := ⟨0, [], 0, 0⟩

/-- initial_docs = [(span_id, text, 1/(1+raw_score)) for ... in rows]. -/
def initialDocsOf (rows : List Row) : List (Int × Str × ℚ) :=
  rows.map (fun r => (r.id, r.text, 1 / (1 + r.raw)))

/-- initial_scores = [score for _, _, score in initial_docs]. -/
def initialScoresOf (rows : List Row) : List ℚ :=
  (initialDocsOf rows).map (fun d => d.2.2)

/-- The PRF drift-guard overlap: |top10_original ∩ top10_expanded| / 10
(0.0 when the original top-10 id set is empty). -/
def overlapOf (rows prfRows : List Row) : ℚ :=
  let origTop10 := (((initialDocsOf rows).take 10).map (fun d => d.1)).toFinset
  let prfTop10 := ((prfRows.take 10).map (fun r => r.id)).toFinset
  if origTop10 ≠ ∅ then ((origTop10 ∩ prfTop10).card : ℚ) / 10 else 0

/-- The PRF block of _search_single_sentence: possibly replace the working
rows by the expanded-query rows, guarded by _should_prf, nonempty expansion
terms, a nonempty expanded query, nonempty expanded rows and overlap ≥ 0.4. -/
def prfRowsStep (q : Str) (keys : List Str) (env : Env) (rows : List Row) :
    List Row :=
  if shouldPrf q (initialScoresOf rows) then
    let expansionTerms := extractPrfTerms (initialDocsOf rows) keys
    if expansionTerms ≠ [] then
      match buildExpandedQuery keys expansionTerms with
      | some expandedQuery =>
        let prfRows := env.fts expandedQuery K_SQL2
        if prfRows ≠ [] then
          if 2/5 ≤ overlapOf rows prfRows then prfRows else rows
        else rows
      | none => rows
    else rows
  else rows

/-- The TOP_OAI slice with bnorm = _minmax of the sliced 1/(1+raw) scores. -/
def slicedCands (rows : List Row) : List Cand :=
  let top := rows.take TOP_OAI
  let braw := top.map (fun r => 1 / (1 + r.raw))
  let bnorm := minmax braw
  (top.zip bnorm).map (fun p => ⟨p.1.id, p.1.text, p.1.hash, p.2⟩)

/-- The Jaccard-dedup shrink of the parallel arrays (ids = [ids[k] for k in
keep_indices], etc.); indices produced by _jaccard_dedup are in range, so
getD with a default is exact. -/
def dedupCands (cs : List Cand) : List Cand :=
  if 1 < cs.length then
    (jaccardDedup (cs.map (fun c => c.text)) (cs.map (fun c => c.bn))
      JACCARD_THRESHOLD).map (fun k => cs.getD k candDefault)
  else cs

/-- rerank_pool = min(adaptive_budget, len(ids)); slice of the arrays.
The source leaves bnorm at its pre-slice length, but bnorm is only read at
indices < min(K_FINAL, len(ids)) ≤ rerank_pool afterwards, where the sliced
and unsliced arrays agree. -/
def poolCands (initialScores : List ℚ) (cs : List Cand) : List Cand :=
  cs.take (min (adaptiveBudget initialScores) cs.length)

/-- Candidates surviving TOP_OAI slice + Jaccard dedup for a given working
row list. -/
def candsStage (q : Str) (env : Env) (rows : List Row) : List Cand :=
  dedupCands (slicedCands (prfRowsStep q (keywordsOf q) env rows))

/-- The rerank pool for a given first-pass row list. -/
def poolStage (q : Str) (env : Env) (rows : List Row) : List Cand :=
  poolCands (initialScoresOf rows) (candsStage q env rows)

/-- Numeric-only shortcut test: some 3-4 digit token and no other
non-stopword token. -/
def numericOnlyQuery (q : Str) : Bool :=
  let nums := (tok q).filter isNum34
  let words := (tok q).filter (fun t => decide (t ∉ STOP) && ! isNum34 t)
  decide (0 < nums.length) && decide (words.length = 0)

/-- The BM25-only output used by the numeric shortcut (rank_stage "S1") and
the embedding-failure fallback (rank_stage "S1_embed_fail"). -/
def s1Output (fileUid filePath : String) (q : Str) (tag : String)
    (cs : List Cand) : List SearchResult :=
  (cs.take K_FINAL).map (fun c =>
    { file_uid := fileUid, file_path := filePath, chunk_id := c.id,
      score := c.bn, snippet := snippet c.text q, rank_stage := tag })

/-- Per-hash lookup over the two cache tiers: persistent table first, then
the in-memory document LRU. -/
def lookupCached (env : Env) (h : Int) : Option Vec :=
  match env.cacheDb h with
  | some v => some v
  | none => env.lruD h

/-- Candidates missing from both cache tiers (need_idx / need_texts /
need_hashes). -/
def needCands (env : Env) (cs : List Cand) : List Cand :=
  cs.filter (fun c => (lookupCached env c.hash).isNone)

/-- np.dot of two vectors. -/
def dot (a b : Vec) : ℚ := ((a.zip b).map (fun p => p.1 * p.2)).sum

/-- The document vector for a hash after the embed-and-store loop: a cache hit
keeps its tier value; a missing hash gets the row V[1+j] of its (last) entry
in the need list.  (With an oracle honoring the length contract every missing
hash is assigned; a short V leaves it absent, where the source would fault.) -/
def vecFor (env : Env) (cs : List Cand) (V : List Vec) (h : Int) : Option Vec :=
  match lookupCached env h with
  | some v => some v
  | none =>
    (((((needCands env cs).map (fun c => c.hash)).zip (V.drop 1)).filter
      (fun p => decide (p.1 = h))).getLast?).map (fun p => p.2)

/-- sims_o: dot of each document vector with the query vector V[0]; 0.0 for a
document with no vector. -/
def simsOf (env : Env) (cs : List Cand) (V : List Vec) : List ℚ :=
  cs.map (fun c =>
    match vecFor env cs V c.hash with
    | some dv => dot dv (V.headD [])
    | none => 0)

/-- onorm = _minmax(sims_o) if any(sims_o) else [0.0] * len(ids). -/
def onormOf (env : Env) (cs : List Cand) (V : List Vec) : List ℚ :=
  if (simsOf env cs V).any (fun s => decide (s ≠ 0)) then
    minmax (simsOf env cs V)
  else List.replicate cs.length 0

/-- embed_ranks: rank of each index under the stable descending sort of the
values (the enumerate-scatter loop of the source).  The source sorts
onorm[i] * embedding_weight with embedding_weight = 0.6 + 0.4*sigmoid(...)
strictly positive; multiplying all keys by one positive scalar changes no
comparison, so the ranks are computed from onorm directly (the sigmoid,
irrational over ℚ, cancels from every branch decision). -/
def ranksOfDesc (vals : List ℚ) : List ℕ :=
  let sorted := insertionSortBy (fun a b => decide (b.2 ≤ a.2))
    ((List.range vals.length).map (fun i => (i, vals.getD i 0)))
  (List.range vals.length).map
    (fun i => sorted.findIdx (fun p => decide (p.1 = i)))

/-- rrf_scores: 1/(RRF_K + bm25_rank[j]) + 1/(RRF_K + embed_rank[j]) with
bm25_rank[j] = j. -/
def rrfScoresOf (n : ℕ) (embedRanks : List ℕ) : List ℚ :=
  (List.range n).map (fun (j : ℕ) =>
    1 / (RRF_K + (j : ℚ)) + 1 / (RRF_K + ((embedRanks.getD j 0 : ℕ) : ℚ)))

/-- final_scores[i] = rrf[i] * (1 + 0.4*jacc[i] + 0.3*phr[i] + 0.1*dig[i]). -/
def finalFusedScores (rrf jb pb db : List ℚ) : List ℚ :=
  (List.range rrf.length).map (fun i =>
    rrf.getD i 0 *
      (1 + (2/5) * jb.getD i 0 + (3/10) * pb.getD i 0 + (1/10) * db.getD i 0))

/-- scored_docs = sorted(zip(ids, texts, final_scores), key=score, reverse)
(Python's stable sort). -/
def scoredDocsOf (cs : List Cand) (finalScores : List ℚ) :
    List (Int × Str × ℚ) :=
  insertionSortBy (fun a b => decide (b.2.2 ≤ a.2.2))
    ((cs.zip finalScores).map (fun p => (p.1.id, p.1.text, p.2)))

/-- The scored_docs list computed by the fusion path. -/
def scoredStage (q : Str) (env : Env) (cs : List Cand) (V : List Vec) :
    List (Int × Str × ℚ) :=
  let bf := computeBoostFeatures (cs.map (fun c => c.text)) q
  scoredDocsOf cs
    (finalFusedScores (rrfScoresOf cs.length (ranksOfDesc (onormOf env cs V)))
      bf.1 bf.2.1 bf.2.2)

/-- vector_coverage = (# sims > 0) / len(ids), 0.0 on an empty pool. -/
def coverageOf (env : Env) (cs : List Cand) (V : List Vec) : ℚ :=
  if cs.length = 0 then 0
  else (((simsOf env cs V).filter (fun s => decide (0 < s))).length : ℚ) /
    (cs.length : ℚ)

/-- text_hashes[ids.index(doc_id)] if doc_id in ids else _text_hash(text):
the hash of the first candidate with the given id.  The fallback is
unreachable (every scored doc id is a pool id) and modeled as 0. -/
def hashOfId (cs : List Cand) (i : Int) : Int :=
  match cs.find? (fun c => decide (c.id = i)) with
  | some c => c.hash
  | none => 0

/-- One enumerate step of the MMR argmax scan: best_score starts at -inf
(None); docs without a vector are skipped; strict improvement moves
best_idx. -/
def mmrStep (cmap : Int → Option Vec) (qv : Vec) (cs : List Cand)
    (selected : List (Int × Str × ℚ)) (acc : ℕ × Option ℚ)
    (ip : ℕ × (Int × Str × ℚ)) : ℕ × Option ℚ :=
  match cmap (hashOfId cs ip.2.1) with
  | none => acc
  | some dv =>
    let relevance := dot dv qv
    let maxSim : ℚ := selected.foldl
      (fun m s =>
        match cmap (hashOfId cs s.1) with
        | none => m
        | some sv => max m (dot dv sv)) 0
    let mmrScore := (7/10) * relevance - (1 - 7/10) * maxSim
    match acc.2 with
    | none => (ip.1, some mmrScore)
    | some b => if b < mmrScore then (ip.1, some mmrScore) else acc

/-- The argmax scan of one MMR iteration over the enumerated remaining list. -/
def mmrBestIdx (cmap : Int → Option Vec) (qv : Vec) (cs : List Cand)
    (selected remaining : List (Int × Str × ℚ)) : ℕ :=
  (remaining.enum.foldl (mmrStep cmap qv cs selected)
    ((0 : ℕ), (none : Option ℚ))).1

/-- The while-loop of the vector-MMR selection: pop the argmax from remaining
and append it to selected until K_FINAL items are selected or remaining is
exhausted. -/
def mmrLoop (cmap : Int → Option Vec) (qv : Vec) (cs : List Cand)
    (selected remaining : List (Int × Str × ℚ)) : List (Int × Str × ℚ) :=
  if _h : selected.length < K_FINAL then
    match remaining with
    | [] => selected
    | x :: rest =>
      let b := mmrBestIdx cmap qv cs selected (x :: rest)
      mmrLoop cmap qv cs (selected ++ [(x :: rest).getD b (0, [], 0)])
        ((x :: rest).eraseIdx b)
    else selected
termination_by K_FINAL - selected.length
decreasing_by
  simp only [List.length_append, List.length_cons, List.length_nil]
  omega

/-- The fusion tail of _search_single_sentence: RRF + boost scoring, the
MMR gate (len(scored_docs) > K_FINAL and vector_coverage >= 0.90), and the
result records whose rank_stage tag tests only vector_coverage >= 0.90. -/
def fusionStage (q : Str) (fileUid filePath : String) (env : Env)
    (pool : List Cand) (V : List Vec) : List SearchResult :=
  (if K_FINAL < (scoredStage q env pool V).length ∧
      (9/10 : ℚ) ≤ coverageOf env pool V then
    match scoredStage q env pool V with
    | [] => []
    | s0 :: rest => mmrLoop (vecFor env pool V) (V.headD []) pool [s0] rest
  else (scoredStage q env pool V).take K_FINAL).map
    (fun t =>
      { file_uid := fileUid, file_path := filePath, chunk_id := t.1,
        score := t.2.2, snippet := snippet t.2.1 q,
        rank_stage :=
          if (9/10 : ℚ) ≤ coverageOf env pool V then "S3_MMR" else "S3" })

/-- Model of _search_single_sentence(q, file_uid, file_path, ...): the per-query
pipeline.  Pure let-bound intermediate values of the source are re-derived
through the stage functions above.  The embedding input is
[q] + need_texts, never empty, so _oai_embed's empty-input None branch is
unreachable. -/
def searchSingleSentence (q : Str) (fileUid filePath : String) (env : Env) :
    List SearchResult :=
  match ftsOr (keywordsOf q) with
  | none => []
  | some mainQuery =>
    if env.fts mainQuery K_SQL = [] then []
    else if numericOnlyQuery q then
      s1Output fileUid filePath q ("S1")
        (candsStage q env (env.fts mainQuery K_SQL))
    else
      match env.oai (q :: (needCands env
          (poolStage q env (env.fts mainQuery K_SQL))).map (fun c => c.text))
        with
      | none =>
        s1Output fileUid filePath q ("S1_embed_fail")
          (poolStage q env (env.fts mainQuery K_SQL))
      | some V =>
        fusionStage q fileUid filePath env
          (poolStage q env (env.fts mainQuery K_SQL)) V

/-- semantic_search(file_path, sentences): deduplicate the input sentences
keeping first occurrences and run each through _search_single_sentence.
Ingestion and database resolution are external; the resolved file_uid is a
parameter. -/
def semanticSearch (fileUid filePath : String) (sentences : List Str)
    (env : Env) : List (List SearchResult) :=
  (dedupFirstAux [] sentences).map
    (fun s => searchSingleSentence s fileUid filePath env)

/-- Snippet builder as the claim (amended) describes it: split into sentences,
pick the first sentence with the maximum count of query tokens present, take
the window from one sentence before it through two sentences after it, join
with single spaces, and when the joined window exceeds 280 characters cut at
the last space within the first 280 characters and append an ellipsis. -/
def snippetSpec (text q : Str) : Str :=
  let sents := splitSents text
  let qt := dedupFirstAux [] (tok q)
  let best := argmaxFirst (fun i => sentMatchCount qt (sents.getD i []))
    sents.length
  let window := (sents.drop (best - 1)).take ((best + 2) - (best - 1) + 1)
  let out := List.intercalate [' '] window
  if 280 < out.length then cutLastSpace (out.take 280) ++ ['…'] else out

/-! Concrete test fixtures used to instantiate the theorems below. -/

/-- An environment whose FTS index has no rows. -/
def envEmpty : Env :=
  { fts := fun _ _ => [], cacheDb := fun _ => none, lruD := fun _ => none,
    oai := fun _ => none }

/-- Two similar but non-duplicate rows matching the query "alpha". -/
def rowsA : List Row :=
  [{ id := 1, text := ("alpha one.").toList, raw := 0, hash := 11 },
   { id := 2, text := ("alpha two.").toList, raw := 1, hash := 12 }]

/-- Fusion-path environment: cold caches, embedding succeeds with identical
one-dimensional unit vectors (coverage 1). -/
def envA : Env :=
  { fts := fun _ _ => rowsA, cacheDb := fun _ => none, lruD := fun _ => none,
    oai := fun _ => some [[1], [1], [1]] }

/-- Fusion-path environment with document vectors orthogonal to the query
vector (all similarities 0, coverage 0). -/
def envB : Env :=
  { fts := fun _ _ => rowsA, cacheDb := fun _ => none, lruD := fun _ => none,
    oai := fun _ => some [[1, 0], [0, 1], [0, 1]] }

/-- Environment whose embedding call always fails. -/
def envC : Env :=
  { fts := fun _ _ => rowsA, cacheDb := fun _ => none, lruD := fun _ => none,
    oai := fun _ => none }

/-- Rows matching the numeric query "1789". -/
def rowsN : List Row :=
  [{ id := 1, text := ("the act of 1789.").toList, raw := 0, hash := 21 },
   { id := 2, text := ("year 1789 ratified.").toList, raw := 1, hash := 22 }]

/-- Environment for the numeric-only shortcut query. -/
def envN : Env :=
  { fts := fun _ _ => rowsN, cacheDb := fun _ => none, lruD := fun _ => none,
    oai := fun _ => none }

/-! Generic list lemmas used by several claims. -/

theorem orderedInsertBy_perm {α : Type} (le : α → α → Bool) (a : α)
    (l : List α) : (orderedInsertBy le a l).Perm (a :: l) := by
  induction l with
  | nil => exact List.Perm.refl _
  | cons b t ih =>
    rw [orderedInsertBy]
    split
    · exact List.Perm.refl _
    · exact (ih.cons b).trans (List.Perm.swap a b t)

theorem insertionSortBy_perm {α : Type} (le : α → α → Bool) (l : List α) :
    (insertionSortBy le l).Perm l := by
  induction l with
  | nil => exact List.Perm.refl _
  | cons a t ih =>
    rw [insertionSortBy]
    exact (orderedInsertBy_perm le a (insertionSortBy le t)).trans (ih.cons a)

theorem orderedInsertBy_pairwise {α : Type} (le : α → α → Bool)
    (htrans : ∀ a b c, le a b = true → le b c = true → le a c = true)
    (htot : ∀ a b, le a b = true ∨ le b a = true) (a : α) (l : List α)
    (hl : l.Pairwise (fun x y => le x y = true)) :
    (orderedInsertBy le a l).Pairwise (fun x y => le x y = true) := by
  induction l with
  | nil => simp [orderedInsertBy]
  | cons b t ih =>
    rw [orderedInsertBy]
    split
    · rename_i hab
      refine List.Pairwise.cons ?_ hl
      intro x hx
      rcases List.mem_cons.mp hx with rfl | hx
      · exact hab
      · exact htrans a b x hab ((List.pairwise_cons.mp hl).1 x hx)
    · rename_i hab
      have hba : le b a = true := by
        rcases htot a b with h | h
        · exact absurd h hab
        · exact h
      refine List.Pairwise.cons ?_ (ih (List.pairwise_cons.mp hl).2)
      intro x hx
      rcases List.mem_cons.mp ((orderedInsertBy_perm le a t).subset hx)
          with rfl | hx2
      · exact hba
      · exact (List.pairwise_cons.mp hl).1 x hx2

theorem insertionSortBy_pairwise {α : Type} (le : α → α → Bool)
    (htrans : ∀ a b c, le a b = true → le b c = true → le a c = true)
    (htot : ∀ a b, le a b = true ∨ le b a = true) (l : List α) :
    (insertionSortBy le l).Pairwise (fun x y => le x y = true) := by
  induction l with
  | nil => simp [insertionSortBy]
  | cons a t ih =>
    rw [insertionSortBy]
    exact orderedInsertBy_pairwise le htrans htot a _ ih

theorem getD_map_fun {α β : Type} (f : α → β) (d : α) (l : List α) (k : ℕ) :
    (l.map f).getD k (f d) = f (l.getD k d) := by
  induction l generalizing k with
  | nil => simp
  | cons a t ih =>
    cases k with
    | zero => simp
    | succ n => simp only [List.map_cons, List.getD_cons_succ]; exact ih n

theorem subperm_map {α β : Type} (f : α → β) {l1 l2 : List α}
    (h : List.Subperm l1 l2) : List.Subperm (l1.map f) (l2.map f) := by
  obtain ⟨u, hp, hs⟩ := h
  exact ⟨u.map f, hp.map f, hs.map f⟩

theorem subperm_nodup {α : Type} {l1 l2 : List α} (h : List.Subperm l1 l2)
    (h2 : l2.Nodup) : l1.Nodup := by
  obtain ⟨u, hp, hs⟩ := h
  exact (hp.nodup_iff).mp (h2.sublist hs)

theorem subperm_subset {α : Type} {l1 l2 : List α} (h : List.Subperm l1 l2) :
    ∀ x ∈ l1, x ∈ l2 := by
  obtain ⟨u, hp, hs⟩ := h
  intro x hx
  exact hs.subset (hp.symm.subset hx)

theorem perm_getElem_cons_eraseIdx {α : Type} (l : List α) (i : ℕ)
    (h : i < l.length) : l.Perm (l[i] :: l.eraseIdx i) := by
  induction l generalizing i with
  | nil => simp at h
  | cons a t ih =>
    cases i with
    | zero => simp
    | succ n =>
      simp only [List.getElem_cons_succ, List.eraseIdx_cons_succ]
      exact ((ih n (by simpa using h)).cons a).trans (List.Perm.swap _ _ _)

theorem perm_getD_cons_eraseIdx {α : Type} (l : List α) (i : ℕ) (d : α)
    (h : i < l.length) : l.Perm (l.getD i d :: l.eraseIdx i) := by
  rw [List.getD_eq_getElem l d h]
  exact perm_getElem_cons_eraseIdx l i h

/-! Lemmas about the Jaccard near-duplicate filter. -/

theorem jaccardSim_comm (a b : Finset Str) : jaccardSim a b = jaccardSim b a := by
  simp [jaccardSim, Finset.inter_comm, Finset.union_comm]

theorem dedupGo_shape (ws : List (Finset Str)) (t : ℚ) :
    ∀ order keep, ∃ s, dedupGo ws t keep order = keep ++ s ∧ s.Sublist order := by
  intro order
  induction order with
  | nil => intro keep; exact ⟨[], by simp [dedupGo], List.Sublist.refl []⟩
  | cons i rest ih =>
    intro keep
    by_cases hc : (keep.all fun j =>
        decide (jaccardSim (ws.getD i ∅) (ws.getD j ∅) < t)) = true
    · obtain ⟨s, hs, hsub⟩ := ih (keep ++ [i])
      refine ⟨i :: s, ?_, hsub.cons₂ i⟩
      simp only [dedupGo, hc, if_true]
      rw [hs, List.append_assoc]
      rfl
    · obtain ⟨s, hs, hsub⟩ := ih keep
      refine ⟨s, ?_, hsub.cons i⟩
      simp only [dedupGo, hc, if_false]
      exact hs

theorem dedupGo_pairwise (ws : List (Finset Str)) (t : ℚ) :
    ∀ order keep,
      (∀ i ∈ keep, ∀ j ∈ keep, i ≠ j →
        jaccardSim (ws.getD i ∅) (ws.getD j ∅) < t) →
      ∀ i ∈ dedupGo ws t keep order, ∀ j ∈ dedupGo ws t keep order, i ≠ j →
        jaccardSim (ws.getD i ∅) (ws.getD j ∅) < t := by
  intro order
  induction order with
  | nil => intro keep hk; simpa [dedupGo] using hk
  | cons i rest ih =>
    intro keep hk
    by_cases hc : (keep.all fun j =>
        decide (jaccardSim (ws.getD i ∅) (ws.getD j ∅) < t)) = true
    · simp only [dedupGo, hc, if_true]
      refine ih (keep ++ [i]) ?_
      intro a ha b hb hab
      rw [List.mem_append, List.mem_singleton] at ha hb
      rcases ha with ha | ha <;> rcases hb with hb | hb
      · exact hk a ha b hb hab
      · subst hb
        rw [jaccardSim_comm]
        exact of_decide_eq_true (List.all_eq_true.mp hc a ha)
      · subst ha
        exact of_decide_eq_true (List.all_eq_true.mp hc b hb)
      · subst ha; subst hb; exact absurd rfl hab
    · simp only [dedupGo, hc, if_false]
      exact ih keep hk

theorem dedupGo_sorted (ws : List (Finset Str)) (t : ℚ) (val : ℕ → ℚ) :
    ∀ order keep,
      (keep.map val).Sorted (fun a b => b ≤ a) →
      order.Pairwise (fun i j => val j ≤ val i) →
      (∀ i ∈ order, ∀ j ∈ keep, val i ≤ val j) →
      ((dedupGo ws t keep order).map val).Sorted (fun a b => b ≤ a) := by
  intro order
  induction order with
  | nil => intro keep hk _ _; simpa [dedupGo] using hk
  | cons i rest ih =>
    intro keep hk hord hcross
    have hresti : ∀ x ∈ rest, val x ≤ val i := fun x hx =>
      (List.pairwise_cons.mp hord).1 x hx
    have hordrest : rest.Pairwise (fun a b => val b ≤ val a) :=
      (List.pairwise_cons.mp hord).2
    by_cases hc : (keep.all fun j =>
        decide (jaccardSim (ws.getD i ∅) (ws.getD j ∅) < t)) = true
    · simp only [dedupGo, hc, if_true]
      refine ih (keep ++ [i]) ?_ hordrest ?_
      · rw [List.map_append]
        refine List.pairwise_append.mpr ⟨hk, List.sorted_singleton _, ?_⟩
        intro a ha b hb
        simp only [List.map_singleton, List.mem_singleton] at hb
        subst hb
        obtain ⟨k, hkmem, hkval⟩ := List.mem_map.mp ha
        rw [← hkval]
        exact hcross i (List.mem_cons_self i rest) k hkmem
      · intro x hx j hj
        rw [List.mem_append, List.mem_singleton] at hj
        rcases hj with hj | hj
        · exact hcross x (List.mem_cons_of_mem i hx) j hj
        · subst hj; exact hresti x hx
    · simp only [dedupGo, hc, if_false]
      refine ih keep hk hordrest ?_
      intro x hx j hj
      exact hcross x (List.mem_cons_of_mem i hx) j hj

theorem argsortDesc_perm (scores : List ℚ) :
    (argsortDesc scores).Perm (List.range scores.length) :=
  insertionSortBy_perm _ _

theorem argsortDesc_nodup (scores : List ℚ) : (argsortDesc scores).Nodup :=
  ((argsortDesc_perm scores).nodup_iff).mpr (List.nodup_range _)

theorem argsortDesc_mem_lt (scores : List ℚ) :
    ∀ k ∈ argsortDesc scores, k < scores.length := fun _ hk =>
  List.mem_range.mp ((argsortDesc_perm scores).subset hk)

theorem argsortDesc_sorted (scores : List ℚ) :
    (argsortDesc scores).Pairwise
      (fun i j => scores.getD j 0 ≤ scores.getD i 0) := by
  have h := insertionSortBy_pairwise
    (fun (i j : ℕ) => decide (scores.getD j 0 ≤ scores.getD i 0))
    (fun a b c hab hbc =>
      decide_eq_true_eq.mpr ((of_decide_eq_true hbc).trans (of_decide_eq_true hab)))
    (fun a b => by
      simp only [decide_eq_true_eq]
      exact le_total (scores.getD b 0) (scores.getD a 0))
    (List.range scores.length)
  exact h.imp (fun hab => of_decide_eq_true hab)

theorem jaccardDedup_nodup (texts : List Str) (scores : List ℚ) (t : ℚ) :
    (jaccardDedup texts scores t).Nodup := by
  unfold jaccardDedup
  split
  · exact List.nodup_range _
  · obtain ⟨s, hs, hsub⟩ := dedupGo_shape (texts.map tokSet) t
      (argsortDesc scores) []
    rw [hs, List.nil_append]
    exact (argsortDesc_nodup scores).sublist hsub

theorem jaccardDedup_mem_lt (texts : List Str) (scores : List ℚ) (t : ℚ)
    (hlen : scores.length = texts.length) :
    ∀ k ∈ jaccardDedup texts scores t, k < texts.length := by
  unfold jaccardDedup
  split
  · intro k hk
    exact List.mem_range.mp hk
  · obtain ⟨s, hs, hsub⟩ := dedupGo_shape (texts.map tokSet) t
      (argsortDesc scores) []
    rw [hs, List.nil_append]
    intro k hk
    exact hlen ▸ argsortDesc_mem_lt scores k (hsub.subset hk)

theorem jaccardDedup_pairwise (texts : List Str) (scores : List ℚ) (t : ℚ) :
    ∀ i ∈ jaccardDedup texts scores t, ∀ j ∈ jaccardDedup texts scores t,
      i ≠ j →
      jaccardSim ((texts.map tokSet).getD i ∅)
        ((texts.map tokSet).getD j ∅) < t := by
  unfold jaccardDedup
  split
  · rename_i hle
    intro i hi j hj hij
    have hi1 := List.mem_range.mp hi
    have hj1 := List.mem_range.mp hj
    omega
  · exact dedupGo_pairwise (texts.map tokSet) t (argsortDesc scores) []
      (by intro i hi; simp at hi)

theorem jaccardDedup_sorted (texts : List Str) (scores : List ℚ) (t : ℚ) :
    ((jaccardDedup texts scores t).map (fun k => scores.getD k 0)).Sorted
      (fun a b => b ≤ a) := by
  unfold jaccardDedup
  split
  · rename_i hle
    rcases Nat.le_one_iff_eq_zero_or_eq_one.mp hle with h | h <;> rw [h]
    · simp
    · rw [show List.range 1 = [0] from rfl]
      simp only [List.map_cons, List.map_nil]
      exact List.sorted_singleton _
  · refine dedupGo_sorted (texts.map tokSet) t (fun k => scores.getD k 0)
      (argsortDesc scores) [] (by simp) (argsortDesc_sorted scores) ?_
    intro i _ j hj
    simp at hj

/-! Lemmas about the candidate-array stages. -/

theorem minmax_length (xs : List ℚ) : (minmax xs).length = xs.length := by
  cases xs with
  | nil => rfl
  | cons x rest =>
    simp only [minmax]
    split <;> simp

theorem slicedCands_map_id (rows : List Row) :
    (slicedCands rows).map (fun c => c.id) =
      (rows.take TOP_OAI).map (fun r => r.id) := by
  unfold slicedCands
  rw [List.map_map]
  have hlen : (rows.take TOP_OAI).length ≤
      (minmax ((rows.take TOP_OAI).map (fun r => 1 / (1 + r.raw)))).length := by
    rw [minmax_length, List.length_map]
  calc ((rows.take TOP_OAI).zip
        (minmax ((rows.take TOP_OAI).map (fun r => 1 / (1 + r.raw))))).map
        ((fun c => c.id) ∘ fun p => Cand.mk p.1.id p.1.text p.1.hash p.2)
      = (((rows.take TOP_OAI).zip
        (minmax ((rows.take TOP_OAI).map (fun r => 1 / (1 + r.raw))))).map
        Prod.fst).map (fun r => r.id) := by rw [List.map_map]; rfl
    _ = (rows.take TOP_OAI).map (fun r => r.id) := by
        rw [List.map_fst_zip _ _ hlen]

theorem dedupCands_map_id_nodup (cs : List Cand)
    (h : (cs.map (fun c => c.id)).Nodup) :
    ((dedupCands cs).map (fun c => c.id)).Nodup := by
  unfold dedupCands
  split
  · rw [List.map_map]
    have hmemlt : ∀ k ∈ jaccardDedup (cs.map (fun c => c.text))
        (cs.map (fun c => c.bn)) JACCARD_THRESHOLD, k < cs.length := by
      intro k hk
      have := jaccardDedup_mem_lt (cs.map (fun c => c.text))
        (cs.map (fun c => c.bn)) JACCARD_THRESHOLD (by simp) k hk
      simpa using this
    refine List.Nodup.map_on ?_ (jaccardDedup_nodup _ _ _)
    intro k1 h1 k2 h2 heq
    have hk1 := hmemlt k1 h1
    have hk2 := hmemlt k2 h2
    simp only [Function.comp_apply] at heq
    rw [List.getD_eq_getElem cs candDefault hk1,
      List.getD_eq_getElem cs candDefault hk2] at heq
    have hk1m : k1 < (cs.map (fun c => c.id)).length := by simpa using hk1
    have hk2m : k2 < (cs.map (fun c => c.id)).length := by simpa using hk2
    have hmap : (cs.map (fun c => c.id))[k1] = (cs.map (fun c => c.id))[k2] := by
      rw [List.getElem_map, List.getElem_map]
      exact heq
    exact (h.getElem_inj_iff).mp hmap
  · exact h

theorem dedupCands_sorted (cs : List Cand) :
    ((dedupCands cs).map (fun c => c.bn)).Sorted (fun a b => b ≤ a) := by
  unfold dedupCands
  split
  · rw [List.map_map]
    have hpt : ∀ k : ℕ, ((fun c => c.bn) ∘ fun k => cs.getD k candDefault) k =
        (fun k => (cs.map (fun c => c.bn)).getD k 0) k := by
      intro k
      simp only [Function.comp_apply]
      have := getD_map_fun (fun c : Cand => c.bn) candDefault cs k
      rw [← this]
      rfl
    rw [List.map_congr_left (fun k _ => hpt k)]
    exact jaccardDedup_sorted (cs.map (fun c => c.text))
      (cs.map (fun c => c.bn)) JACCARD_THRESHOLD
  · rename_i hle
    push_neg at hle
    match cs, hle with
    | [], _ => simp
    | [c], _ =>
      simp only [List.map_cons, List.map_nil]
      exact List.sorted_singleton _

theorem jaccardDedup_length_le (texts : List Str) (scores : List ℚ) (t : ℚ)
    (hlen : scores.length = texts.length) :
    (jaccardDedup texts scores t).length ≤ texts.length := by
  unfold jaccardDedup
  split
  · simp
  · obtain ⟨s, hs, hsub⟩ := dedupGo_shape (texts.map tokSet) t
      (argsortDesc scores) []
    rw [hs, List.nil_append]
    calc s.length ≤ (argsortDesc scores).length := hsub.length_le
      _ = scores.length := by
          rw [(argsortDesc_perm _).length_eq, List.length_range]
      _ = texts.length := hlen

theorem dedupCands_length_le (cs : List Cand) :
    (dedupCands cs).length ≤ cs.length := by
  unfold dedupCands
  split
  · rw [List.length_map]
    have := jaccardDedup_length_le (cs.map (fun c => c.text))
      (cs.map (fun c => c.bn)) JACCARD_THRESHOLD (by simp)
    simpa using this
  · exact le_rfl

/-! Lemmas about the MMR selection loop. -/

theorem mmrStep_fst (cmap : Int → Option Vec) (qv : Vec) (cs : List Cand)
    (selected : List (Int × Str × ℚ)) (acc : ℕ × Option ℚ)
    (ip : ℕ × (Int × Str × ℚ)) :
    (mmrStep cmap qv cs selected acc ip).1 = acc.1 ∨
      (mmrStep cmap qv cs selected acc ip).1 = ip.1 := by
  obtain ⟨a1, a2⟩ := acc
  unfold mmrStep
  rcases cmap (hashOfId cs ip.2.1) with _ | dv
  · exact Or.inl rfl
  · rcases a2 with _ | b
    · exact Or.inr rfl
    · simp only
      split
      · exact Or.inr rfl
      · exact Or.inl rfl

theorem mmrBestIdx_lt (cmap : Int → Option Vec) (qv : Vec) (cs : List Cand)
    (selected : List (Int × Str × ℚ)) (remaining : List (Int × Str × ℚ))
    (hne : remaining ≠ []) :
    mmrBestIdx cmap qv cs selected remaining < remaining.length := by
  have key : ∀ (l : List (ℕ × (Int × Str × ℚ))) (acc : ℕ × Option ℚ),
      acc.1 < remaining.length →
      (∀ p ∈ l, p.1 < remaining.length) →
      (l.foldl (mmrStep cmap qv cs selected) acc).1 < remaining.length := by
    intro l
    induction l with
    | nil => intro acc hacc _; exact hacc
    | cons p rest ih =>
      intro acc hacc hmem
      rw [List.foldl_cons]
      refine ih (mmrStep cmap qv cs selected acc p) ?_
        (fun x hx => hmem x (List.mem_cons_of_mem p hx))
      rcases mmrStep_fst cmap qv cs selected acc p with h | h
      · rw [h]; exact hacc
      · rw [h]; exact hmem p (List.mem_cons_self p rest)
  unfold mmrBestIdx
  refine key remaining.enum (0, none) ?_ ?_
  · cases remaining with
    | nil => exact absurd rfl hne
    | cons a t => simp
  · intro p hp
    exact (List.getElem?_eq_some.mp (List.mem_enum_iff_getElem?.mp hp)).1

theorem mmrLoop_length_le (cmap : Int → Option Vec) (qv : Vec) (cs : List Cand)
    (selected remaining : List (Int × Str × ℚ))
    (h : selected.length ≤ K_FINAL) :
    (mmrLoop cmap qv cs selected remaining).length ≤ K_FINAL := by
  induction selected, remaining using mmrLoop.induct cmap qv cs with
  | case1 selected hlt =>
    rw [mmrLoop.eq_def, dif_pos hlt]
    exact h
  | case2 selected hlt x rest b ih =>
    rw [mmrLoop.eq_def, dif_pos hlt]
    exact ih (by simp only [List.length_append, List.length_cons,
      List.length_nil]; omega)
  | case3 selected remaining hge =>
    rw [mmrLoop.eq_def, dif_neg hge]
    exact h

theorem mmrLoop_subperm (cmap : Int → Option Vec) (qv : Vec) (cs : List Cand)
    (selected remaining : List (Int × Str × ℚ)) :
    List.Subperm (mmrLoop cmap qv cs selected remaining)
      (selected ++ remaining) := by
  induction selected, remaining using mmrLoop.induct cmap qv cs with
  | case1 selected hlt =>
    rw [mmrLoop.eq_def, dif_pos hlt]
    exact ⟨selected, List.Perm.refl _, List.sublist_append_left _ _⟩
  | case2 selected hlt x rest b ih =>
    rw [mmrLoop.eq_def, dif_pos hlt]
    refine ih.trans ?_
    have hb : mmrBestIdx cmap qv cs selected (x :: rest) <
        (x :: rest).length :=
      mmrBestIdx_lt cmap qv cs selected (x :: rest) (by simp)
    have hperm : List.Perm (x :: rest)
        ((x :: rest).getD (mmrBestIdx cmap qv cs selected (x :: rest))
            (0, [], 0) ::
          (x :: rest).eraseIdx (mmrBestIdx cmap qv cs selected (x :: rest))) :=
      perm_getD_cons_eraseIdx (x :: rest)
        (mmrBestIdx cmap qv cs selected (x :: rest)) (0, [], 0) hb
    refine List.Perm.subperm ?_
    have h1 : (selected ++ [(x :: rest).getD
          (mmrBestIdx cmap qv cs selected (x :: rest)) (0, [], 0)]) ++
          (x :: rest).eraseIdx (mmrBestIdx cmap qv cs selected (x :: rest))
        = selected ++ ((x :: rest).getD
          (mmrBestIdx cmap qv cs selected (x :: rest)) (0, [], 0) ::
          (x :: rest).eraseIdx
            (mmrBestIdx cmap qv cs selected (x :: rest))) := by
      rw [List.append_assoc]; rfl
    rw [h1]
    exact (hperm.symm).append_left selected
  | case3 selected remaining hge =>
    rw [mmrLoop.eq_def, dif_neg hge]
    exact ⟨selected, List.Perm.refl _, List.sublist_append_left _ _⟩

/-! Lemmas about the fusion stage. -/

theorem scoredDocsOf_perm (cs : List Cand) (fs : List ℚ) :
    (scoredDocsOf cs fs).Perm
      ((cs.zip fs).map (fun p => (p.1.id, p.1.text, p.2))) :=
  insertionSortBy_perm _ _

theorem scoredDocsOf_length (cs : List Cand) (fs : List ℚ)
    (h : cs.length ≤ fs.length) : (scoredDocsOf cs fs).length = cs.length := by
  rw [(scoredDocsOf_perm cs fs).length_eq, List.length_map, List.length_zip]
  omega

theorem scoredDocsOf_map_id_nodup (cs : List Cand) (fs : List ℚ)
    (hn : (cs.map (fun c => c.id)).Nodup) (h : cs.length ≤ fs.length) :
    ((scoredDocsOf cs fs).map (fun t => t.1)).Nodup := by
  have hp := (scoredDocsOf_perm cs fs).map (fun t => t.1)
  refine (hp.nodup_iff).mpr ?_
  rw [List.map_map]
  have hcomp : ((cs.zip fs).map
      ((fun t : Int × Str × ℚ => t.1) ∘ (fun p => (p.1.id, p.1.text, p.2)))) =
      ((cs.zip fs).map Prod.fst).map (fun c => c.id) := by
    rw [List.map_map]; rfl
  rw [hcomp, List.map_fst_zip _ _ h]
  exact hn

theorem rrfScoresOf_length (n : ℕ) (embedRanks : List ℕ) :
    (rrfScoresOf n embedRanks).length = n := by
  simp [rrfScoresOf]

theorem finalFusedScores_length (rrf jb pb db : List ℚ) :
    (finalFusedScores rrf jb pb db).length = rrf.length := by
  simp [finalFusedScores]

theorem scoredStage_length (q : Str) (env : Env) (pool : List Cand)
    (V : List Vec) : (scoredStage q env pool V).length = pool.length := by
  unfold scoredStage
  refine scoredDocsOf_length _ _ ?_
  rw [finalFusedScores_length, rrfScoresOf_length]

theorem scoredStage_id_nodup (q : Str) (env : Env) (pool : List Cand)
    (V : List Vec) (hn : (pool.map (fun c => c.id)).Nodup) :
    ((scoredStage q env pool V).map (fun t => t.1)).Nodup := by
  unfold scoredStage
  refine scoredDocsOf_map_id_nodup _ _ hn ?_
  rw [finalFusedScores_length, rrfScoresOf_length]

/-! Lemmas about the two S1 output paths. -/

theorem s1Output_length (u p : String) (q : Str) (tag : String)
    (cs : List Cand) :
    (s1Output u p q tag cs).length = min K_FINAL cs.length := by
  simp [s1Output]

theorem s1Output_ids (u p : String) (q : Str) (tag : String) (cs : List Cand) :
    (s1Output u p q tag cs).map (fun r => r.chunk_id) =
      (cs.take K_FINAL).map (fun c => c.id) := by
  unfold s1Output
  rw [List.map_map]
  rfl

theorem s1Output_scores (u p : String) (q : Str) (tag : String)
    (cs : List Cand) :
    (s1Output u p q tag cs).map (fun r => r.score) =
      (cs.take K_FINAL).map (fun c => c.bn) := by
  unfold s1Output
  rw [List.map_map]
  rfl

theorem s1Output_tags (u p : String) (q : Str) (tag : String) (cs : List Cand) :
    ∀ r ∈ s1Output u p q tag cs, r.rank_stage = tag := by
  intro r hr
  unfold s1Output at hr
  obtain ⟨c, _, hc⟩ := List.mem_map.mp hr
  rw [← hc]

/-! Lemmas about the PRF step and the candidate stages of the orchestrator. -/

theorem prfRowsStep_cases (q : Str) (keys : List Str) (env : Env)
    (rows : List Row) :
    prfRowsStep q keys env rows = rows ∨
      ∃ s, prfRowsStep q keys env rows = env.fts s K_SQL2 := by
  unfold prfRowsStep
  dsimp only
  split
  · split
    · split
      · rename_i expandedQuery heq
        split
        · split
          · exact Or.inr ⟨expandedQuery, rfl⟩
          · exact Or.inl rfl
        · exact Or.inl rfl
      · exact Or.inl rfl
    · exact Or.inl rfl
  · exact Or.inl rfl

theorem candsStage_id_nodup (q : Str) (env : Env) (rows : List Row)
    (hfts : ∀ s n, ((env.fts s n).map (fun r => r.id)).Nodup)
    (hrows : (rows.map (fun r => r.id)).Nodup) :
    ((candsStage q env rows).map (fun c => c.id)).Nodup := by
  unfold candsStage
  have hrows2 : ((prfRowsStep q (keywordsOf q) env rows).map
      (fun r => r.id)).Nodup := by
    rcases prfRowsStep_cases q (keywordsOf q) env rows with h | ⟨s, h⟩
    · rw [h]; exact hrows
    · rw [h]; exact hfts s K_SQL2
  refine dedupCands_map_id_nodup _ ?_
  rw [slicedCands_map_id, List.map_take]
  exact hrows2.sublist (List.take_sublist _ _)

theorem poolStage_id_nodup (q : Str) (env : Env) (rows : List Row)
    (hfts : ∀ s n, ((env.fts s n).map (fun r => r.id)).Nodup)
    (hrows : (rows.map (fun r => r.id)).Nodup) :
    ((poolStage q env rows).map (fun c => c.id)).Nodup := by
  unfold poolStage poolCands
  rw [List.map_take]
  exact (candsStage_id_nodup q env rows hfts hrows).sublist
    (List.take_sublist _ _)

theorem fusionStage_len_nodup (q : Str) (u p : String) (env : Env)
    (pool : List Cand) (V : List Vec)
    (hn : (pool.map (fun c => c.id)).Nodup) :
    (fusionStage q u p env pool V).length ≤ K_FINAL ∧
      ((fusionStage q u p env pool V).map (fun r => r.chunk_id)).Nodup := by
  have hsn := scoredStage_id_nodup q env pool V hn
  unfold fusionStage
  rw [List.length_map, List.map_map]
  have hproj : ((fun r : SearchResult => r.chunk_id) ∘
      (fun t : Int × Str × ℚ =>
        ({ file_uid := u, file_path := p, chunk_id := t.1, score := t.2.2,
           snippet := snippet t.2.1 q,
           rank_stage := if (9/10 : ℚ) ≤ coverageOf env pool V then "S3_MMR"
             else "S3" } : SearchResult))) = (fun t : Int × Str × ℚ => t.1) :=
    rfl
  rw [hproj]
  split
  · rename_i hgate
    split
    · simp
    · rename_i s0 rest hscored
      constructor
      · exact mmrLoop_length_le _ _ _ _ _
          (by simp only [List.length_singleton, K_FINAL]; omega)
      · refine subperm_nodup
          (subperm_map (fun t : Int × Str × ℚ => t.1)
            (mmrLoop_subperm (vecFor env pool V) (V.headD []) pool [s0] rest))
          ?_
        rw [show ([s0] ++ rest) = s0 :: rest from rfl, ← hscored]
        exact hsn
  · constructor
    · rw [List.length_take]
      exact min_le_left _ _
    · rw [List.map_take]
      exact hsn.sublist (List.take_sublist _ _)

/-- Core invariant of _search_single_sentence: at most K_FINAL results and
pairwise-distinct chunk_ids, on every return path, provided the FTS index
never returns duplicate ids in one result set. -/
theorem search_len_nodup (q : Str) (u p : String) (env : Env)
    (hfts : ∀ s n, ((env.fts s n).map (fun r => r.id)).Nodup) :
    (searchSingleSentence q u p env).length ≤ K_FINAL ∧
      ((searchSingleSentence q u p env).map (fun r => r.chunk_id)).Nodup := by
  unfold searchSingleSentence
  split
  · simp [K_FINAL]
  · rename_i mq hmq
    split
    · simp [K_FINAL]
    · rename_i hrows
      split
      · constructor
        · rw [s1Output_length]
          exact min_le_left _ _
        · rw [s1Output_ids, List.map_take]
          exact (candsStage_id_nodup q env _ hfts (hfts mq K_SQL)).sublist
            (List.take_sublist _ _)
      · split
        · constructor
          · rw [s1Output_length]
            exact min_le_left _ _
          · rw [s1Output_ids, List.map_take]
            exact (poolStage_id_nodup q env _ hfts (hfts mq K_SQL)).sublist
              (List.take_sublist _ _)
        · rename_i V hV
          exact fusionStage_len_nodup q u p env _ V
            (poolStage_id_nodup q env _ hfts (hfts mq K_SQL))

/-! Remaining support lemmas. -/

theorem splitSentsGo_ne_nil (l : Str) : ∀ skipWs cur,
    splitSentsGo skipWs cur l ≠ [] := by
  induction l with
  | nil =>
    intro skipWs cur
    simp [splitSentsGo]
  | cons c rest ih =>
    intro skipWs cur
    rw [splitSentsGo]
    split
    · exact ih true []
    · split
      · simp
      · exact ih false (c :: cur)

theorem splitSents_ne_nil (text : Str) : splitSents text ≠ [] :=
  splitSentsGo_ne_nil text false []

theorem foldl_min_replicate (n : ℕ) (c : ℚ) :
    (List.replicate n c).foldl min c = c := by
  induction n with
  | zero => rfl
  | succ m ih => rw [List.replicate_succ, List.foldl_cons, min_self]; exact ih

theorem foldl_max_replicate (n : ℕ) (c : ℚ) :
    (List.replicate n c).foldl max c = c := by
  induction n with
  | zero => rfl
  | succ m ih => rw [List.replicate_succ, List.foldl_cons, max_self]; exact ih

/-! The claims. -/

/-- C1: every per-query result list of semantic_search has length at most
K_FINAL and pairwise-distinct chunk_ids, on every return path (numeric
shortcut, embedding failure, plain fusion and MMR), provided each FTS result
set has pairwise-distinct row ids. -/
theorem claim_C1 (fileUid filePath : String) (sentences : List Str)
    (env : Env)
    (hfts : ∀ s n, ((env.fts s n).map (fun r => r.id)).Nodup) :
    ∀ res ∈ semanticSearch fileUid filePath sentences env,
      res.length ≤ K_FINAL ∧ (res.map (fun r => r.chunk_id)).Nodup := by
  intro res hres
  obtain ⟨s, _, hs⟩ := List.mem_map.mp hres
  rw [← hs]
  exact search_len_nodup s fileUid filePath env hfts

/-- Witness for C1 at a concrete call. -/
theorem claim_C1_witness :
    (searchSingleSentence (("alpha").toList) ("u") ("p") envEmpty).length
      ≤ K_FINAL ∧
    ((searchSingleSentence (("alpha").toList) ("u") ("p") envEmpty).map
      (fun r => r.chunk_id)).Nodup :=
  claim_C1 ("u") ("p") [("alpha").toList] envEmpty
    (fun s n => by simp [envEmpty])
    (searchSingleSentence (("alpha").toList) ("u") ("p") envEmpty)
    (by simp [semanticSearch, dedupFirstAux])

/-- C5 counterexample: on a score list of length 1 the adaptive budget is 1,
which is not in {70, 80, 90, 100} (the claim quantifies over every list of
initial normalized BM25 scores). -/
theorem claim_C5_counterexample :
    adaptiveBudget [1/2] = 1 ∧
      adaptiveBudget [1/2] ∉ ([70, 80, 90, 100] : List ℕ) := by
  constructor
  · decide
  · decide

/-- C5 (amended): with at least 10 scores the adaptive budget is one of
{70, 80, 90, 100}, chosen by the stated rule (std encoded as variance); with
fewer than 10 scores the source returns min(len(scores), 80) instead.  The
rerank pool is the budget capped at the number of candidates surviving
deduplication. -/
theorem claim_C5 :
    (∀ scores : List ℚ, 10 ≤ scores.length →
      adaptiveBudget scores ∈ ([70, 80, 90, 100] : List ℕ) ∧
      adaptiveBudget scores =
        (if variance10 scores < (2/100)^2 ∨
            scores.getD 0 0 - scores.getD 9 0 < 1/10 then 100
         else if 2/5 < scores.getD 0 0 - scores.getD 4 0 then 70
         else if 1/2 < scores.getD 0 0 - scores.getD 9 0 then 80
         else 90)) ∧
    (∀ (scores : List ℚ) (cs : List Cand),
      (poolCands scores cs).length = min (adaptiveBudget scores) cs.length) := by
  constructor
  · intro scores hlen
    have h4 : min 4 (scores.length - 1) = 4 := by omega
    have h9 : min 9 (scores.length - 1) = 9 := by omega
    have hbudget : adaptiveBudget scores =
        (if variance10 scores < (2/100)^2 ∨
            scores.getD 0 0 - scores.getD 9 0 < 1/10 then 100
         else if 2/5 < scores.getD 0 0 - scores.getD 4 0 then 70
         else if 1/2 < scores.getD 0 0 - scores.getD 9 0 then 80
         else 90) := by
      unfold adaptiveBudget
      rw [if_neg (by omega), h4, h9]
    refine ⟨?_, hbudget⟩
    rw [hbudget]
    split
    · simp
    · split
      · simp
      · split
        · simp
        · simp
  · intro scores cs
    unfold poolCands
    rw [List.length_take]
    omega

/-- Witness for C5 (amended) at concrete inputs. -/
theorem claim_C5_witness :
    (adaptiveBudget [1, 9/10, 8/10, 7/10, 6/10, 5/10, 4/10, 3/10, 2/10, 1/10]
        ∈ ([70, 80, 90, 100] : List ℕ) ∧
      adaptiveBudget [1, 9/10, 8/10, 7/10, 6/10, 5/10, 4/10, 3/10, 2/10, 1/10] =
        (if variance10 [1, 9/10, 8/10, 7/10, 6/10, 5/10, 4/10, 3/10, 2/10,
              1/10] < (2/100)^2 ∨
            ([1, 9/10, 8/10, 7/10, 6/10, 5/10, 4/10, 3/10, 2/10,
              (1:ℚ)/10] : List ℚ).getD 0 0 -
              ([1, 9/10, 8/10, 7/10, 6/10, 5/10, 4/10, 3/10, 2/10,
                (1:ℚ)/10] : List ℚ).getD 9 0 < 1/10 then 100
         else if 2/5 < ([1, 9/10, 8/10, 7/10, 6/10, 5/10, 4/10, 3/10, 2/10,
              (1:ℚ)/10] : List ℚ).getD 0 0 -
              ([1, 9/10, 8/10, 7/10, 6/10, 5/10, 4/10, 3/10, 2/10,
                (1:ℚ)/10] : List ℚ).getD 4 0 then 70
         else if 1/2 < ([1, 9/10, 8/10, 7/10, 6/10, 5/10, 4/10, 3/10, 2/10,
              (1:ℚ)/10] : List ℚ).getD 0 0 -
              ([1, 9/10, 8/10, 7/10, 6/10, 5/10, 4/10, 3/10, 2/10,
                (1:ℚ)/10] : List ℚ).getD 9 0 then 80
         else 90)) ∧
    (poolCands [1/2] [candDefault]).length =
      min (adaptiveBudget [1/2]) ([candDefault] : List Cand).length :=
  ⟨claim_C5.1 [1, 9/10, 8/10, 7/10, 6/10, 5/10, 4/10, 3/10, 2/10, 1/10]
      (by decide),
    claim_C5.2 [1/2] [candDefault]⟩

/-- C7: in Jaccard deduplication, no two retained candidates have token-set
Jaccard similarity at or above the threshold, and the kept indices come out
in decreasing-score order. -/
theorem claim_C7 (texts : List Str) (scores : List ℚ) :
    (∀ i ∈ jaccardDedup texts scores JACCARD_THRESHOLD,
      ∀ j ∈ jaccardDedup texts scores JACCARD_THRESHOLD, i ≠ j →
        jaccardSim ((texts.map tokSet).getD i ∅)
          ((texts.map tokSet).getD j ∅) < JACCARD_THRESHOLD) ∧
    ((jaccardDedup texts scores JACCARD_THRESHOLD).map
      (fun k => scores.getD k 0)).Sorted (fun a b => b ≤ a) :=
  ⟨jaccardDedup_pairwise texts scores JACCARD_THRESHOLD,
    jaccardDedup_sorted texts scores JACCARD_THRESHOLD⟩

/-- Witness for C7 at a concrete pair of retained candidates. -/
theorem claim_C7_witness :
    jaccardSim ((([("alpha one.").toList, ("alpha two.").toList]).map
        tokSet).getD 0 ∅)
      ((([("alpha one.").toList, ("alpha two.").toList]).map tokSet).getD 1 ∅)
      < JACCARD_THRESHOLD :=
  (claim_C7 [("alpha one.").toList, ("alpha two.").toList] [1, 0]).1
    0 (by with_unfolding_all decide) 1 (by with_unfolding_all decide)
    (by decide)

/-- C8 counterexample: with five sentences and the best match in the first,
the emitted snippet covers sentences 0-2 (two sentences after the best one),
not sentences 0-3 as the claimed three-sentences-after window would give. -/
theorem claim_C8_counterexample :
    snippet (("A b. C d. E f. G h. I j.").toList) (("a").toList) =
      ("A b. C d. E f.").toList ∧
    snippet (("A b. C d. E f. G h. I j.").toList) (("a").toList) ≠
      ("A b. C d. E f. G h.").toList := by
  constructor
  · with_unfolding_all decide
  · with_unfolding_all decide

/-- C8 (amended): the snippet is built from the window starting one sentence
before the best-matching sentence and extending two sentences after it,
truncated at the last space within 280 characters with an ellipsis. -/
theorem claim_C8 (text q : Str) : snippet text q = snippetSpec text q := by
  unfold snippet snippetSpec
  rw [if_neg (splitSents_ne_nil text)]
  dsimp only
  have hwin :
      ((splitSents text).drop
          (argmaxFirst (fun i => sentMatchCount (dedupFirstAux [] (tok q))
            ((splitSents text).getD i [])) (splitSents text).length - 1)).take
        (min (splitSents text).length
          (argmaxFirst (fun i => sentMatchCount (dedupFirstAux [] (tok q))
            ((splitSents text).getD i [])) (splitSents text).length + 3) -
         (argmaxFirst (fun i => sentMatchCount (dedupFirstAux [] (tok q))
            ((splitSents text).getD i [])) (splitSents text).length - 1)) =
      ((splitSents text).drop
          (argmaxFirst (fun i => sentMatchCount (dedupFirstAux [] (tok q))
            ((splitSents text).getD i [])) (splitSents text).length - 1)).take
        ((argmaxFirst (fun i => sentMatchCount (dedupFirstAux [] (tok q))
            ((splitSents text).getD i [])) (splitSents text).length + 2) -
         (argmaxFirst (fun i => sentMatchCount (dedupFirstAux [] (tok q))
            ((splitSents text).getD i [])) (splitSents text).length - 1) +
         1) := by
    rw [List.take_eq_take, List.length_drop]
    omega
  rw [hwin]

/-- C9 counterexample: with both candidate texts containing the query digit
12, the raw digit feature vector is the constant [1, 1] (range 0 < 1e-9), yet
the normalized digit feature is [0, 0] and not the [0.5, 0.5] that the §4.7
min-max normalization of the claim would give. -/
theorem claim_C9_counterexample :
    (rawBoostFeatures [("alpha 12 cat").toList, ("alpha 12 dog").toList]
      (("alpha 12").toList)).2.2 = [1, 1] ∧
    (computeBoostFeatures [("alpha 12 cat").toList, ("alpha 12 dog").toList]
      (("alpha 12").toList)).2.2 = [0, 0] ∧
    minmax [1, 1] = [1/2, 1/2] ∧
    ([0, 0] : List ℚ) ≠ [1/2, 1/2] := by
  refine ⟨?_, ?_, ?_, ?_⟩
  · with_unfolding_all decide
  · with_unfolding_all decide
  · with_unfolding_all decide
  · with_unfolding_all decide

/-- C9 (amended): each boost feature vector is normalized by
(x - min) / ((max - min) + 1e-9), so a constant feature vector maps to all
zeros (not 0.5); the final score is rrf[i] * (1 + 0.4*jacc[i] + 0.3*phr[i]
+ 0.1*dig[i]). -/
theorem claim_C9 :
    (∀ (n : ℕ) (c : ℚ),
      boostNormalize (List.replicate n c) = List.replicate n 0) ∧
    (∀ (texts : List Str) (q : Str),
      computeBoostFeatures texts q =
        (boostNormalize (rawBoostFeatures texts q).1,
         boostNormalize (rawBoostFeatures texts q).2.1,
         boostNormalize (rawBoostFeatures texts q).2.2)) ∧
    (∀ (rrf jb pb db : List ℚ) (i : ℕ), i < rrf.length →
      (finalFusedScores rrf jb pb db).getD i 0 =
        rrf.getD i 0 * (1 + (2/5) * jb.getD i 0 + (3/10) * pb.getD i 0 +
          (1/10) * db.getD i 0)) := by
  refine ⟨?_, ?_, ?_⟩
  · intro n c
    cases n with
    | zero => rfl
    | succ m =>
      rw [List.replicate_succ]
      unfold boostNormalize
      dsimp only
      rw [foldl_min_replicate, foldl_max_replicate, ← List.replicate_succ,
        List.map_replicate]
      have hz : (c - c) / ((c - c) + 1/1000000000) = 0 := by
        rw [sub_self, zero_div]
      rw [hz]
  · intro texts q
    rfl
  · intro rrf jb pb db i hi
    unfold finalFusedScores
    rw [List.getD_eq_getElem _ _ (by simpa using hi), List.getElem_map,
      List.getElem_range]

/-- Witness for C9 (amended) at concrete inputs. -/
theorem claim_C9_witness :
    boostNormalize (List.replicate 2 (5:ℚ)) = List.replicate 2 0 ∧
    (finalFusedScores [1] [] [] []).getD 0 0 =
      ([1] : List ℚ).getD 0 0 * (1 + (2/5) * ([] : List ℚ).getD 0 0 +
        (3/10) * ([] : List ℚ).getD 0 0 + (1/10) * ([] : List ℚ).getD 0 0) :=
  ⟨claim_C9.1 2 5, claim_C9.2.2 [1] [] [] [] 0 (by decide)⟩

/-- On the non-shortcut path with a successful embedding call, the query is
answered by the fusion stage over the rerank pool. -/
theorem search_fusion_eq (q : Str) (u p : String) (env : Env) (mq : String)
    (V : List Vec)
    (hmq : ftsOr (keywordsOf q) = some mq)
    (hrows : env.fts mq K_SQL ≠ [])
    (hnum : numericOnlyQuery q = false)
    (hoai : env.oai (q :: (needCands env
        (poolStage q env (env.fts mq K_SQL))).map (fun c => c.text)) =
      some V) :
    searchSingleSentence q u p env =
      fusionStage q u p env (poolStage q env (env.fts mq K_SQL)) V := by
  unfold searchSingleSentence
  rw [hmq]
  dsimp only
  rw [if_neg hrows, if_neg (by rw [hnum]; exact Bool.false_ne_true), hoai]

/-- C2: when the single batched embedding call (input [q] + texts missing from
both cache tiers) fails, the query returns exactly min(K_FINAL, surviving
candidates in the rerank pool) results, every one tagged "S1_embed_fail" and
scored by its min-max-normalized BM25 score; no fusion, boost or MMR runs and
the function still returns a value (no exception). -/
theorem claim_C2 (q : Str) (u p : String) (env : Env) (mq : String)
    (hmq : ftsOr (keywordsOf q) = some mq)
    (hrows : env.fts mq K_SQL ≠ [])
    (hnum : numericOnlyQuery q = false)
    (hoai : env.oai (q :: (needCands env
        (poolStage q env (env.fts mq K_SQL))).map (fun c => c.text)) = none) :
    searchSingleSentence q u p env =
      ((poolStage q env (env.fts mq K_SQL)).take K_FINAL).map (fun c =>
        { file_uid := u, file_path := p, chunk_id := c.id, score := c.bn,
          snippet := snippet c.text q,
          rank_stage := ("S1_embed_fail" : String) }) ∧
    (searchSingleSentence q u p env).length =
      min K_FINAL (poolStage q env (env.fts mq K_SQL)).length := by
  have hout : searchSingleSentence q u p env =
      s1Output u p q ("S1_embed_fail") (poolStage q env (env.fts mq K_SQL)) := by
    unfold searchSingleSentence
    rw [hmq]
    dsimp only
    rw [if_neg hrows, if_neg (by rw [hnum]; exact Bool.false_ne_true), hoai]
  constructor
  · rw [hout]
    rfl
  · rw [hout, s1Output_length]

/-- Witness for C2 on a concrete failing-embedding environment. -/
theorem claim_C2_witness :
    (searchSingleSentence (("alpha").toList) ("u") ("p") envC).length =
      min K_FINAL
        (poolStage (("alpha").toList) envC
          (envC.fts ("\"alpha\"") K_SQL)).length :=
  (claim_C2 (("alpha").toList) ("u") ("p") envC ("\"alpha\"")
    (by with_unfolding_all decide) (by with_unfolding_all decide)
    (by with_unfolding_all decide) rfl).2

/-- C3 counterexample: in envA every candidate has positive cosine (coverage
1 ≥ 0.90) but only 2 candidates survive (≤ K_FINAL), so the MMR pass is
skipped; yet both emitted results carry rank_stage "S3_MMR". -/
theorem claim_C3_counterexample :
    (candsStage (("alpha").toList) envA rowsA).length ≤ K_FINAL ∧
    (searchSingleSentence (("alpha").toList) ("u") ("p") envA).map
      (fun r => r.rank_stage) = ["S3_MMR", "S3_MMR"] := by
  constructor
  · with_unfolding_all decide
  · with_unfolding_all decide

/-- C3 (amended): on the fusion path a result is tagged "S3_MMR" exactly when
vector coverage is at least 0.90; in particular coverage below 0.90 never
yields "S3_MMR".  The candidate-count side of the MMR gate only decides
whether the MMR pass runs, not the tag. -/
theorem claim_C3 (q : Str) (u p : String) (env : Env) (mq : String)
    (V : List Vec)
    (hmq : ftsOr (keywordsOf q) = some mq)
    (hrows : env.fts mq K_SQL ≠ [])
    (hnum : numericOnlyQuery q = false)
    (hoai : env.oai (q :: (needCands env
        (poolStage q env (env.fts mq K_SQL))).map (fun c => c.text)) =
      some V) :
    ∀ r ∈ searchSingleSentence q u p env,
      (r.rank_stage = "S3_MMR" ↔
        (9/10 : ℚ) ≤ coverageOf env (poolStage q env (env.fts mq K_SQL)) V) := by
  rw [search_fusion_eq q u p env mq V hmq hrows hnum hoai]
  intro r hr
  unfold fusionStage at hr
  obtain ⟨t, _, hmk⟩ := List.mem_map.mp hr
  rw [← hmk]
  dsimp only
  split
  · rename_i hcov
    simp only [hcov, iff_true]
  · rename_i hcov
    constructor
    · intro hcontra
      exact absurd hcontra (by decide)
    · intro hcontra
      exact absurd hcontra hcov

/-- Witness for C3 (amended) on a concrete zero-coverage environment. -/
theorem claim_C3_witness :
    (searchSingleSentence (("alpha").toList) ("u") ("p") envB).headI.rank_stage
        = "S3_MMR" ↔
      (9/10 : ℚ) ≤ coverageOf envB
        (poolStage (("alpha").toList) envB (envB.fts ("\"alpha\"") K_SQL))
        [[1, 0], [0, 1], [0, 1]] :=
  claim_C3 (("alpha").toList) ("u") ("p") envB ("\"alpha\"")
    [[1, 0], [0, 1], [0, 1]]
    (by with_unfolding_all decide) (by with_unfolding_all decide)
    (by with_unfolding_all decide) rfl
    (searchSingleSentence (("alpha").toList) ("u") ("p") envB).headI
    (by with_unfolding_all decide)

/-- C4: the PRF gate fires only for a short query (≤ 4 non-stopword tokens of
length > 2) or a flat top-10 (std < 0.02, i.e. variance < 0.0004, requiring at
least 10 scores); and when PRF runs and the expanded query returns rows, the
expanded rows replace the working set iff the top-10 overlap is ≥ 0.4,
otherwise the original rows are kept. -/
theorem claim_C4 :
    (∀ (q : Str) (scores : List ℚ), shouldPrf q scores = true →
      ((tok q).filter (fun t =>
          decide (t ∉ STOP) && decide (2 < t.length))).length ≤ 4 ∨
        (10 ≤ scores.length ∧ variance10 scores < (2/100)^2)) ∧
    (∀ (q : Str) (keys : List Str) (env : Env) (rows : List Row)
        (expandedQuery : String),
      shouldPrf q (initialScoresOf rows) = true →
      extractPrfTerms (initialDocsOf rows) keys ≠ [] →
      buildExpandedQuery keys (extractPrfTerms (initialDocsOf rows) keys) =
        some expandedQuery →
      env.fts expandedQuery K_SQL2 ≠ [] →
      prfRowsStep q keys env rows =
        (if 2/5 ≤ overlapOf rows (env.fts expandedQuery K_SQL2) then
          env.fts expandedQuery K_SQL2
        else rows)) := by
  constructor
  · intro q scores hsp
    unfold shouldPrf at hsp
    dsimp only at hsp
    split at hsp
    · rename_i hle
      exact Or.inl hle
    · split at hsp
      · exact absurd hsp Bool.false_ne_true
      · rename_i hlt
        exact Or.inr ⟨by omega, of_decide_eq_true hsp⟩
  · intro q keys env rows expandedQuery h1 h2 h3 h4
    unfold prfRowsStep
    dsimp only
    rw [if_pos h1, if_pos h2, h3]
    dsimp only
    rw [if_pos h4]

/-- Witness for C4: a one-token query passes the gate, and with the constant
FTS oracle of envA the drift guard (overlap 0.2 < 0.4) keeps the original
rows. -/
theorem claim_C4_witness :
    (((tok (("alpha").toList)).filter (fun t =>
        decide (t ∉ STOP) && decide (2 < t.length))).length ≤ 4 ∨
      (10 ≤ ([] : List ℚ).length ∧ variance10 [] < (2/100)^2)) ∧
    prfRowsStep (("alpha").toList) [("alpha").toList] envA rowsA =
      (if 2/5 ≤ overlapOf rowsA
          (envA.fts ("(\"alpha\") OR (alpha AND (\"one\" OR \"two\"))")
            K_SQL2) then
        envA.fts ("(\"alpha\") OR (alpha AND (\"one\" OR \"two\"))") K_SQL2
      else rowsA) :=
  ⟨claim_C4.1 (("alpha").toList) [] (by with_unfolding_all decide),
   claim_C4.2 (("alpha").toList) [("alpha").toList] envA rowsA
     ("(\"alpha\") OR (alpha AND (\"one\" OR \"two\"))")
     (by with_unfolding_all decide) (by with_unfolding_all decide)
     (by with_unfolding_all decide) (by with_unfolding_all decide)⟩

/-- C6: for a query with at least one 3-4-digit numeric token and no other
non-stopword token, the engine returns the top min(K_FINAL, surviving
candidates) deduplicated candidates, equal to the take-and-tag of the
deduplicated candidate list, ordered by normalized BM25 score (descending),
each tagged "S1"; the embedding oracle is never consulted (replacing it
changes nothing). -/
theorem claim_C6 (q : Str) (u p : String) (env : Env) (mq : String)
    (hmq : ftsOr (keywordsOf q) = some mq)
    (hrows : env.fts mq K_SQL ≠ [])
    (hnum : numericOnlyQuery q = true) :
    searchSingleSentence q u p env =
      ((candsStage q env (env.fts mq K_SQL)).take K_FINAL).map (fun c =>
        { file_uid := u, file_path := p, chunk_id := c.id, score := c.bn,
          snippet := snippet c.text q, rank_stage := ("S1" : String) }) ∧
    (searchSingleSentence q u p env).length =
      min K_FINAL (candsStage q env (env.fts mq K_SQL)).length ∧
    ((searchSingleSentence q u p env).map (fun r => r.score)).Sorted
      (fun a b => b ≤ a) ∧
    (∀ oaiF : List Str → Option (List Vec),
      searchSingleSentence q u p
        { fts := env.fts, cacheDb := env.cacheDb, lruD := env.lruD,
          oai := oaiF } = searchSingleSentence q u p env) := by
  have hout : searchSingleSentence q u p env =
      s1Output u p q ("S1") (candsStage q env (env.fts mq K_SQL)) := by
    unfold searchSingleSentence
    rw [hmq]
    dsimp only
    rw [if_neg hrows, if_pos hnum]
  refine ⟨?_, ?_, ?_, ?_⟩
  · rw [hout]
    rfl
  · rw [hout, s1Output_length]
  · rw [hout, s1Output_scores, List.map_take]
    exact (dedupCands_sorted _).sublist (List.take_sublist _ _)
  · intro oaiF
    have hout2 : searchSingleSentence q u p
        { fts := env.fts, cacheDb := env.cacheDb, lruD := env.lruD,
          oai := oaiF } =
        s1Output u p q ("S1")
          (candsStage q
            { fts := env.fts, cacheDb := env.cacheDb, lruD := env.lruD,
              oai := oaiF } (env.fts mq K_SQL)) := by
      unfold searchSingleSentence
      rw [hmq]
      dsimp only
      rw [if_neg hrows, if_pos hnum]
    rw [hout, hout2]
    rfl

/-- Witness for C6 on a concrete numeric-only query. -/
theorem claim_C6_witness :
    (searchSingleSentence (("1789").toList) ("u") ("p") envN).length =
      min K_FINAL
        (candsStage (("1789").toList) envN (envN.fts ("1789") K_SQL)).length :=
  (claim_C6 (("1789").toList) ("u") ("p") envN ("1789")
    (by with_unfolding_all decide) (by with_unfolding_all decide)
    (by with_unfolding_all decide)).2.1

/-- C10: on the fusion path every emitted result carries the post-boost fusion
score of its candidate: its (chunk_id, score) pair comes from the scored_docs
list (RRF times one plus the co-mention boost, descending); the MMR pass only
selects and reorders entries of that list and never alters the emitted
score. -/
theorem claim_C10 (q : Str) (u p : String) (env : Env) (mq : String)
    (V : List Vec)
    (hmq : ftsOr (keywordsOf q) = some mq)
    (hrows : env.fts mq K_SQL ≠ [])
    (hnum : numericOnlyQuery q = false)
    (hoai : env.oai (q :: (needCands env
        (poolStage q env (env.fts mq K_SQL))).map (fun c => c.text)) =
      some V) :
    ∀ r ∈ searchSingleSentence q u p env,
      ∃ t ∈ scoredStage q env (poolStage q env (env.fts mq K_SQL)) V,
        r.chunk_id = t.1 ∧ r.score = t.2.2 := by
  rw [search_fusion_eq q u p env mq V hmq hrows hnum hoai]
  intro r hr
  unfold fusionStage at hr
  obtain ⟨t, ht, hmk⟩ := List.mem_map.mp hr
  refine ⟨t, ?_, by rw [← hmk], by rw [← hmk]⟩
  revert ht
  split
  · split
    · intro ht
      exact absurd ht (List.not_mem_nil t)
    · rename_i s0 rest hscored
      intro ht
      have hmem := subperm_subset
        (mmrLoop_subperm (vecFor env (poolStage q env (env.fts mq K_SQL)) V)
          (V.headD []) (poolStage q env (env.fts mq K_SQL)) [s0] rest) t ht
      rw [List.singleton_append, ← hscored] at hmem
      exact hmem
  · intro ht
    exact List.mem_of_mem_take ht

/-- Witness for C10 on the concrete fusion-path environment envA. -/
theorem claim_C10_witness :
    ∃ t ∈ scoredStage (("alpha").toList) envA
        (poolStage (("alpha").toList) envA (envA.fts ("\"alpha\"") K_SQL))
        [[1], [1], [1]],
      (searchSingleSentence (("alpha").toList) ("u") ("p")
        envA).headI.chunk_id = t.1 ∧
      (searchSingleSentence (("alpha").toList) ("u") ("p")
        envA).headI.score = t.2.2 :=
  claim_C10 (("alpha").toList) ("u") ("p") envA ("\"alpha\"") [[1], [1], [1]]
    (by with_unfolding_all decide) (by with_unfolding_all decide)
    (by with_unfolding_all decide) rfl
    (searchSingleSentence (("alpha").toList) ("u") ("p") envA).headI
    (by with_unfolding_all decide)

end KB
